import Mathlib

/-!
Verification of the LinkMan pager against its specification.

Shallow embedding of the LinkMan sources (`src/main.rs`, `src/app.rs`,
`src/man_page_info.rs`, `src/text_handling.rs`, `src/program_mode.rs`).

Rust strings are modelled as `List Char` (Rust `char` = Unicode scalar value =
Lean `Char`).  Byte indices into UTF-8 string data are modelled explicitly via
`Char.utf8Size`.  `u16` arithmetic is modelled on `Nat` with explicit `% 65536`
where the Rust code can wrap (release-mode semantics) and with `Nat`
truncated subtraction where the code uses `saturating_sub`.
-/

namespace LinkMan

/-- The NUL character, rejected by the reference parser. -/
def nulChar : Char := Char.ofNat 0

/-! Section: Reference Parser (`src/man_page_info.rs`, `ManPageInfo::try_from`)

`ManPageInfo` borrows `name` (the substring before the first `(`) and
`section_number` (the single ASCII digit right after it).  The original
stores the section as a one-byte string slice; we store the digit `Char`. -/

structure ManPageInfo where
  name : List Char
  section_number : Char
  deriving DecidableEq, Repr

/-- Split a character list at the first `'('`: returns the characters strictly
before it and the characters strictly after it (`value.find('(')` plus the
slicing done in `ManPageInfo::try_from`); `none` when no `'('` occurs. -/
def splitAtParen : List Char → Option (List Char × List Char)
  | [] => none
  | c :: cs =>
    if c = '(' then some ([], cs)
    else (splitAtParen cs).map (fun p => (c :: p.1, p.2))

/-- Model of `ManPageInfo::try_from`: reject tokens containing NUL or `'/'`; find the
first `'('`; require the next character to exist and be an ASCII digit; on
success the name is everything before the `'('` and the section is that
single digit.  The single error value `StringNotManRefError` is `none`. -/
def tryFrom (value : List Char) : Option ManPageInfo :=
  if value.any (fun c => c = nulChar || c = '/') then none
  else
    match splitAtParen value with
    | none => none
    | some (before, afterParen) =>
      match afterParen.head? with
      | none => none
      | some nextChar =>
        if nextChar.isDigit then some ⟨before, nextChar⟩ else none

/-- Model of `ManPageInfo::as_args`: build the two C strings `(section, name)` handed
to the `man` subprocess; `CString::new` fails exactly on an interior NUL. -/
def asArgs (info : ManPageInfo) : Option (List Char × List Char) :=
  if info.section_number = nulChar then none
  else if info.name.any (fun c => c = nulChar) then none
  else some ([info.section_number], info.name)

/-! Section: Scroll arithmetic (`src/main.rs` `run`, `src/app.rs` `App`)

`scroll`, `num_lines` and `height` are `u16`.  The per-frame clamp is
`scroll.min(num_lines.saturating_sub(height) + 2)`; the `G` key executes
`scroll = num_lines - height + 2` with wrapping `u16` arithmetic. -/

/-- Per-frame clamp of the scroll offset
(`scroll = scroll.min(num_lines.saturating_sub(height) + 2)`).
`Nat` truncated subtraction is exactly `u16::saturating_sub`; the
subsequent `+ 2` is a wrapping `u16` addition. -/
def clampScroll (o n h : Nat) : Nat :=
  Nat.min o ((n - h + 2) % 65536)

/-- The `G` / shift-`g` handler (`scroll = num_lines - height + 2`):
wrapping `u16` subtraction followed by wrapping `u16` addition.
Inputs are `u16` values (`< 65536`). -/
def gKeyScroll (n h : Nat) : Nat :=
  ((n + 65536 - h) % 65536 + 2) % 65536

/-! Section: Link-Jump Protocol (`src/main.rs`, `try_link_jump`)

The parent-side protocol depends on the outcomes of `libc::fork` and
`libc::wait` and on the raw wait status.  `WIFEXITED(s) = (s & 0x7f) == 0`
and `WEXITSTATUS(s) = (s >> 8) & 0xff` (glibc); `EXIT_SUCCESS = 0`. -/

/-- Outcome of the operating-system interactions during one link jump, as
observed by the parent process. -/
inductive JumpWorld where
  /-- `libc::fork` returned a negative pid. -/
  | forkFailed : JumpWorld
  /-- `libc::wait` in the parent returned a negative value. -/
  | waitFailed : JumpWorld
  /-- `libc::wait` succeeded and stored this raw status word. -/
  | waited (status : Nat) : JumpWorld
  deriving DecidableEq, Repr

/-- The distinct error results `try_link_jump` can return; the pager never
crashes on a failed jump, it returns one of these. -/
inductive JumpError where
  | forkError : JumpError
  | waitError : JumpError
  | childUnsuccessful : JumpError
  deriving DecidableEq, Repr

/-- Macro `WIFEXITED` for a raw wait status. -/
def wifexited (s : Nat) : Bool := s % 128 = 0

/-- Macro `WEXITSTATUS` for a raw wait status. -/
def wexitstatus (s : Nat) : Nat := s / 256 % 256

/-- Parent side of `try_link_jump`: `Err` on fork failure, `Err` on wait
failure, `Ok(())` iff the child terminated normally (`WIFEXITED`) with
exit status `EXIT_SUCCESS = 0`, `Err` otherwise. -/
def tryLinkJump : JumpWorld → Except JumpError Unit
  | .forkFailed => .error .forkError
  | .waitFailed => .error .waitError
  | .waited s =>
    if wifexited s = true ∧ wexitstatus s = 0 then .ok () else .error .childUnsuccessful

/-- Spec-side description: the waited-for child terminated normally with
exit status zero. -/
def TerminatedNormallyZero : JumpWorld → Prop
  | .forkFailed => False
  | .waitFailed => False
  | .waited s => wifexited s = true ∧ wexitstatus s = 0

instance : DecidablePred TerminatedNormallyZero := by
  intro w
  cases w <;> simp [TerminatedNormallyZero] <;> infer_instance

/-! Section: Width Negotiation (`set_man_width_variable`, identical in
`src/main.rs` and `src/app.rs`).

The environment variable is modelled as `Option (List Char)` (unset or its
value), the terminal-size query as `Option Nat` (the column count, a `u16`,
or `none` when the size cannot be determined). -/

/-- Rust `str::parse::<u16>()`: an optional leading `+` sign, then one or
more ASCII digits, and the value must fit in `u16`. -/
def parseU16 (s : List Char) : Option Nat :=
  let digits := match s with
    | '+' :: rest => rest
    | _ => s
  if digits.isEmpty then none
  else if digits.all Char.isDigit then
    let v := digits.foldl (fun acc c => acc * 10 + (c.toNat - '0'.toNat)) 0
    if v < 65536 then some v else none
  else none

/-- Model of `set_man_width_variable`: if `MANWIDTH` is already set and
`u16`-parsable, return the environment unchanged (the skip branch);
otherwise set it to the terminal column count (default 80 when the size
query fails) minus 2 (`saturating_sub`), formatted in decimal.  Returns the
resulting value of `MANWIDTH`. -/
def setManWidthVariable (env : Option (List Char)) (cols : Option Nat) :
    Option (List Char) :=
  if (env.bind parseU16).isSome then env
  else some (Nat.toDigits 10 (cols.getD 80 - 2))

/-! Section: Event-loop click dispatch.

`main.rs` (`run`, lines 146-157) guards the word-lookup arm only by
"left mouse button released"; the unused `App::handle_event` variant in
`app.rs` (lines 175-177) additionally requires
`(1..=self.height - 3).contains(&mouse_event.row)` with `u16` arithmetic.
`main` drives `run`; `app.rs` is not declared as a module of the crate. -/

/-- The mouse event kinds distinguished by the event loops. -/
inductive MouseKind where
  | leftUp : MouseKind
  | scrollUp : MouseKind
  | scrollDown : MouseKind
  | other : MouseKind
  deriving DecidableEq, Repr

/-- Guard of the word-lookup arm in `run` (`src/main.rs`): the row and
height of the click play no role, only the event kind. -/
def runClickInvokes (kind : MouseKind) (_row _height : Nat) : Bool :=
  kind = MouseKind.leftUp

/-- Guard of the word-lookup arm in `App::handle_event` (`src/app.rs`):
left-button release and `1 ≤ row ≤ height - 3`, where `height - 3` is a
wrapping `u16` subtraction. -/
def appClickInvokes (kind : MouseKind) (row height : Nat) : Bool :=
  decide (kind = MouseKind.leftUp) &&
    (decide (1 ≤ row) && decide (row ≤ (height + 65536 - 3) % 65536))

/-! Section: Word Locator and Offset Cache
(`src/text_handling.rs`, `word_at_position`).

The grapheme segmentation performed by the external `unicode-segmentation`
crate (`UnicodeSegmentation::graphemes(line, true)`) is not code of this
repository; it is modelled as a parameter `seg : List Char → List (List Char)`.
Its defining property, used where a theorem needs it, is that the clusters
concatenate back to the segmented line (`SegOK`).

The `static mut` HashMap cache is modelled by explicit state passing of an
association list keyed, like the HashMap, by the full line text.  Rust `Vec`
indexing and string slicing panic when out of bounds or off a char
boundary; a panic is modelled as `Except.error`. -/

/-- Unicode White_Space property, i.e. Rust `char::is_whitespace`. -/
def rustIsWhitespace (c : Char) : Bool :=
  let n := c.toNat
  (decide (9 ≤ n) && decide (n ≤ 13)) || decide (n = 32) || decide (n = 0x85) ||
    decide (n = 0xA0) || decide (n = 0x1680) ||
    (decide (0x2000 ≤ n) && decide (n ≤ 0x200A)) || decide (n = 0x2028) ||
    decide (n = 0x2029) || decide (n = 0x202F) || decide (n = 0x205F) ||
    decide (n = 0x3000)

/-- The backward-scan boundary test of `word_at_position`: every `char` of
the cluster is whitespace, `/`, `(` or `)`. -/
def leftBoundary (g : List Char) : Bool :=
  g.all (fun c => rustIsWhitespace c || c = '/' || c = '(' || c = ')')

/-- The forward-scan boundary test of `word_at_position`: every `char` of
the cluster is whitespace or `/`. -/
def rightBoundary (g : List Char) : Bool :=
  g.all (fun c => rustIsWhitespace c || c = '/')

/-- Backward walk: `while start > 0 && !leftBoundary(graphemes[start-1]) { start -= 1 }`.
The index is always in range at call sites; `getD` mirrors the guarded
indexing. -/
def walkBack (gs : List (List Char)) : Nat → Nat
  | 0 => 0
  | s + 1 => if leftBoundary (gs.getD s []) then s + 1 else walkBack gs s

/-- Forward walk: `while end < graphemes.len() && !rightBoundary(graphemes[end]) { end += 1 }`. -/
def walkFwd (gs : List (List Char)) (e : Nat) : Nat :=
  if h : e < gs.length then
    if rightBoundary (gs.get ⟨e, h⟩) then e else walkFwd gs (e + 1)
  else e
termination_by gs.length - e

/-- UTF-8 byte length of a string, `str::len` in Rust. -/
def utf8Len (l : List Char) : Nat := (l.map Char.utf8Size).sum

/-- The grapheme-boundary byte offsets computed and cached by
`word_at_position`: `[0]` followed by the running sums of the clusters'
byte lengths (length = cluster count + 1). -/
def byteOffsets : List (List Char) → List Nat
  | [] => [0]
  | g :: gs => 0 :: (byteOffsets gs).map (fun x => x + utf8Len g)

/-- Drop exactly `n` leading UTF-8 bytes from a string; `none` when `n`
is not a char boundary or exceeds the byte length (a Rust slicing panic). -/
def utf8Drop (l : List Char) (n : Nat) : Option (List Char) :=
  if n = 0 then some l
  else match l with
    | [] => none
    | c :: cs => if c.utf8Size ≤ n then utf8Drop cs (n - c.utf8Size) else none

/-- Take exactly `n` leading UTF-8 bytes of a string; `none` when `n` is
not a char boundary or exceeds the byte length (a Rust slicing panic). -/
def utf8Take (l : List Char) (n : Nat) : Option (List Char) :=
  if n = 0 then some []
  else match l with
    | [] => none
    | c :: cs =>
      if c.utf8Size ≤ n then (utf8Take cs (n - c.utf8Size)).map (fun t => c :: t)
      else none

/-- Rust `&line[a..b]`: requires `a ≤ b` and both to be char boundaries
within the string; `none` models the slicing panic. -/
def utf8Slice (l : List Char) (a b : Nat) : Option (List Char) :=
  if a ≤ b then (utf8Drop l a).bind (fun t => utf8Take t (b - a)) else none

/-- The `static mut HashMap<String, Vec<usize>>` offsets cache, as an
association list from line text to cached byte offsets. -/
abbrev OffsetsCache := List (List Char × List Nat)

/-- HashMap `get` by key value. -/
def cacheLookup (cache : OffsetsCache) (line : List Char) : Option (List Nat) :=
  (cache.find? (fun p => p.1 == line)).map (fun p => p.2)

/-- The shared tail of both branches of `word_at_position`:
`offsets[start]`, `offsets[end]`, then `&line[start_byte..end_byte]`.
`Except.error` models the two possible panics. -/
def sliceByOffsets (line : List Char) (offsets : List Nat) (s e : Nat) :
    Except String (List Char) :=
  match offsets.get? s, offsets.get? e with
  | some sb, some eb =>
    match utf8Slice line sb eb with
    | some w => .ok w
    | none => .error "byte range not on char boundaries"
  | _, _ => .error "offset index out of bounds"

/-- Model of `word_at_position`: `col.checked_sub(1)`, 1-based row plus
scroll minus one for the border, bounds checks, whitespace check, backward
and forward walks, then the byte slice via cached or freshly computed
offsets (the fresh offsets are inserted into the cache).  Returns the
result (`ok none` = "no word", `error` = panic) and the updated cache. -/
def wordAtPosition (seg : List Char → List (List Char)) (cache : OffsetsCache)
    (lines : List (List Char)) (scroll row col : Nat) :
    Except String (Option (List Char)) × OffsetsCache :=
  if col = 0 then (.ok none, cache)
  else
    let colIdx := col - 1
    if row + scroll = 0 then (.ok none, cache)
    else
      match lines.get? (row + scroll - 1) with
      | none => (.ok none, cache)
      | some line =>
        let graphemes := seg line
        if graphemes.length ≤ colIdx then (.ok none, cache)
        else if (graphemes.getD colIdx []).all rustIsWhitespace then (.ok none, cache)
        else
          let start := walkBack graphemes colIdx
          let stop := walkFwd graphemes colIdx
          match cacheLookup cache line with
          | some offsets =>
            match sliceByOffsets line offsets start stop with
            | .ok w => (.ok (some w), cache)
            | .error msg => (.error msg, cache)
          | none =>
            let offsets := byteOffsets graphemes
            match sliceByOffsets line offsets start stop with
            | .ok w => (.ok (some w), (line, offsets) :: cache)
            | .error msg => (.error msg, cache)

/-- Cache-free core of `word_at_position`: the same computation with the
offsets always freshly computed (the code's uncached path).  Used to state
that the cached and uncached paths agree. -/
def wapCore (seg : List Char → List (List Char))
    (lines : List (List Char)) (scroll row col : Nat) :
    Except String (Option (List Char)) :=
  if col = 0 then .ok none
  else
    let colIdx := col - 1
    if row + scroll = 0 then .ok none
    else
      match lines.get? (row + scroll - 1) with
      | none => .ok none
      | some line =>
        let graphemes := seg line
        if graphemes.length ≤ colIdx then .ok none
        else if (graphemes.getD colIdx []).all rustIsWhitespace then .ok none
        else
          match sliceByOffsets line (byteOffsets graphemes)
              (walkBack graphemes colIdx) (walkFwd graphemes colIdx) with
          | .ok w => .ok (some w)
          | .error msg => .error msg

/-- Contract of the grapheme segmentation: the clusters concatenate back to
the original line (true of Unicode extended grapheme clusters). -/
def SegOK (seg : List Char → List (List Char)) : Prop :=
  ∀ l, (seg l).flatten = l

/-- Cache well-formedness: every entry stores exactly the offsets
`word_at_position` computes for that line text.  The empty cache is
well-formed and `wordAtPosition` preserves well-formedness, so this is an
invariant of the program. -/
def CacheWF (seg : List Char → List (List Char)) (cache : OffsetsCache) : Prop :=
  ∀ p ∈ cache, p.2 = byteOffsets (seg p.1)

/-- Degenerate segmentation with every `char` its own cluster; it is the
correct extended-grapheme segmentation for the plain ASCII lines used in
concrete instantiations, and satisfies `SegOK` for all inputs. -/
def charSeg (l : List Char) : List (List Char) := l.map (fun c => [c])

/-- The "no word" conditions of the specification for `word_at_position`:
border column, out-of-range resolved line index `row + scroll - 1`,
grapheme index `col - 1` at or past the cluster count, or an
all-whitespace cluster at that index. -/
def NoWordConds (seg : List Char → List (List Char))
    (lines : List (List Char)) (scroll row col : Nat) : Prop :=
  col = 0 ∨
  ¬(0 < row + scroll ∧ row + scroll - 1 < lines.length) ∨
  (∃ line, lines.get? (row + scroll - 1) = some line ∧
    ((seg line).length ≤ col - 1 ∨
      (col - 1 < (seg line).length ∧
        ((seg line).getD (col - 1) []).all rustIsWhitespace = true)))

/-! Section: Helper lemmas. -/

/-- A token without `'('` has no split. -/
theorem splitAtParen_eq_none (v : List Char) (h : '(' ∉ v) :
    splitAtParen v = none := by
  induction v with
  | nil => rfl
  | cons c cs ih =>
    simp only [List.mem_cons, not_or] at h
    have hc : ¬ c = '(' := fun hcc => h.1 hcc.symm
    simp [splitAtParen, hc, ih h.2]

/-- The backward walk never moves right. -/
theorem walkBack_le (gs : List (List Char)) : ∀ c, walkBack gs c ≤ c := by
  intro c
  induction c with
  | zero => simp [walkBack]
  | succ s ih =>
    rw [walkBack]
    split
    · exact Nat.le_refl _
    · exact Nat.le_trans ih (Nat.le_succ s)

/-- Fuel-indexed form: the forward walk never moves left. -/
theorem walkFwd_ge_aux (gs : List (List Char)) :
    ∀ (k e : Nat), gs.length ≤ e + k → e ≤ walkFwd gs e := by
  intro k
  induction k with
  | zero =>
    intro e hk
    unfold walkFwd
    rw [dif_neg (by omega)]
  | succ k ih =>
    intro e hk
    unfold walkFwd
    split
    · split
      · exact Nat.le_refl _
      · exact Nat.le_trans (Nat.le_succ e) (ih (e + 1) (by omega))
    · exact Nat.le_refl _

/-- The forward walk never moves left. -/
theorem walkFwd_ge (gs : List (List Char)) (e : Nat) : e ≤ walkFwd gs e :=
  walkFwd_ge_aux gs gs.length e (Nat.le_add_left _ _)

/-- Fuel-indexed form: the forward walk stays within the cluster count. -/
theorem walkFwd_le_aux (gs : List (List Char)) :
    ∀ (k e : Nat), gs.length ≤ e + k → e ≤ gs.length → walkFwd gs e ≤ gs.length := by
  intro k
  induction k with
  | zero =>
    intro e hk he
    unfold walkFwd
    rw [dif_neg (by omega)]
    omega
  | succ k ih =>
    intro e hk he
    unfold walkFwd
    split
    · split
      · omega
      · exact ih (e + 1) (by omega) (by omega)
    · omega

/-- The forward walk stays within the cluster count. -/
theorem walkFwd_le (gs : List (List Char)) (e : Nat) (he : e ≤ gs.length) :
    walkFwd gs e ≤ gs.length :=
  walkFwd_le_aux gs gs.length e (Nat.le_add_left _ _) he

/-- Byte length of an empty string. -/
theorem utf8Len_nil : utf8Len [] = 0 := rfl

/-- Byte length of a cons. -/
theorem utf8Len_cons (c : Char) (l : List Char) :
    utf8Len (c :: l) = c.utf8Size + utf8Len l := by
  simp [utf8Len]

/-- Byte length distributes over append. -/
theorem utf8Len_append (a b : List Char) :
    utf8Len (a ++ b) = utf8Len a + utf8Len b := by
  simp [utf8Len]

/-- The cached offsets list holds, at index `k`, the byte length of the
first `k` grapheme clusters. -/
theorem byteOffsets_get (gs : List (List Char)) :
    ∀ k, k ≤ gs.length →
      (byteOffsets gs).get? k = some (utf8Len (gs.take k).flatten) := by
  induction gs with
  | nil =>
    intro k hk
    cases k with
    | zero => simp [byteOffsets, utf8Len]
    | succ k => exact absurd hk (by simp)
  | cons g gs ih =>
    intro k hk
    cases k with
    | zero => simp [byteOffsets, utf8Len]
    | succ k =>
      simp only [byteOffsets, List.get?_cons_succ, List.get?_map,
        ih k (by simpa using hk)]
      simp [utf8Len, Nat.add_comm]

/-- Dropping zero bytes. -/
theorem utf8Drop_zero (l : List Char) : utf8Drop l 0 = some l := by
  cases l <;> simp [utf8Drop]

/-- Dropping exactly the bytes of a prefix yields the suffix. -/
theorem utf8Drop_append (a b : List Char) :
    utf8Drop (a ++ b) (utf8Len a) = some b := by
  induction a with
  | nil => rw [List.nil_append, utf8Len_nil, utf8Drop_zero]
  | cons c a ih =>
    have hp := c.utf8Size_pos
    rw [List.cons_append, utf8Drop]
    rw [if_neg (by rw [utf8Len_cons]; omega)]
    rw [if_pos (by rw [utf8Len_cons]; omega)]
    have harg : utf8Len (c :: a) - c.utf8Size = utf8Len a := by
      rw [utf8Len_cons]; omega
    rw [harg, ih]

/-- Taking exactly the bytes of a prefix yields that prefix. -/
theorem utf8Take_append (a b : List Char) :
    utf8Take (a ++ b) (utf8Len a) = some a := by
  induction a with
  | nil =>
    rw [List.nil_append, utf8Len_nil]
    cases b <;> simp [utf8Take]
  | cons c a ih =>
    have hp := c.utf8Size_pos
    rw [List.cons_append, utf8Take]
    rw [if_neg (by rw [utf8Len_cons]; omega)]
    rw [if_pos (by rw [utf8Len_cons]; omega)]
    have harg : utf8Len (c :: a) - c.utf8Size = utf8Len a := by
      rw [utf8Len_cons]; omega
    rw [harg, ih]
    rfl

/-- Slicing a concatenation at the byte boundaries of the middle part
recovers the middle part. -/
theorem utf8Slice_middle (P M S : List Char) :
    utf8Slice (P ++ M ++ S) (utf8Len P) (utf8Len P + utf8Len M) = some M := by
  unfold utf8Slice
  rw [if_pos (Nat.le_add_right _ _)]
  rw [List.append_assoc, utf8Drop_append]
  simp only [Option.bind_some, Nat.add_sub_cancel_left]
  exact utf8Take_append M S

/-- On well-formed offsets (start and stop within the cluster count, in
order) over a faithful segmentation, the byte slice succeeds and returns
the concatenation of the clusters in `[s, e)`. -/
theorem sliceByOffsets_ok (gs : List (List Char)) (line : List Char)
    (hjoin : gs.flatten = line) (s e : Nat) (hs : s ≤ e) (he : e ≤ gs.length) :
    sliceByOffsets line (byteOffsets gs) s e =
      .ok ((gs.drop s).take (e - s)).flatten := by
  have hsl : s ≤ gs.length := Nat.le_trans hs he
  have hgets := byteOffsets_get gs s hsl
  have hgete := byteOffsets_get gs e he
  have htakee : gs.take e = gs.take s ++ (gs.drop s).take (e - s) := by
    rw [List.take_drop]
    have h1 : s + (e - s) = e := by omega
    rw [h1]
    have h2 : List.take s (List.take e gs) = List.take s gs := by
      rw [List.take_take]
      congr 1
      omega
    rw [← h2, List.take_append_drop]
  have hflat : (gs.take e).flatten =
      (gs.take s).flatten ++ ((gs.drop s).take (e - s)).flatten := by
    rw [htakee, List.flatten_append]
  have hline : line = (gs.take s).flatten ++
      (((gs.drop s).take (e - s)).flatten ++ ((gs.drop s).drop (e - s)).flatten) := by
    conv_lhs => rw [← hjoin, ← List.take_append_drop s gs]
    rw [List.flatten_append]
    congr 1
    conv_lhs => rw [← List.take_append_drop (e - s) (gs.drop s)]
    rw [List.flatten_append]
  have hslice : utf8Slice line (utf8Len (gs.take s).flatten)
      (utf8Len (gs.take s).flatten + utf8Len ((gs.drop s).take (e - s)).flatten) =
      some ((gs.drop s).take (e - s)).flatten := by
    rw [hline, ← List.append_assoc]
    exact utf8Slice_middle _ _ _
  unfold sliceByOffsets
  rw [hgets, hgete, hflat, utf8Len_append]
  simp [hslice]

/-- A cache hit on a well-formed cache returns exactly the offsets the
fresh path would compute. -/
theorem cacheLookup_wf {seg : List Char → List (List Char)}
    {cache : OffsetsCache} (hwf : CacheWF seg cache) {line : List Char}
    {offs : List Nat} (h : cacheLookup cache line = some offs) :
    offs = byteOffsets (seg line) := by
  unfold cacheLookup at h
  cases hf : cache.find? (fun p => p.1 == line) with
  | none => rw [hf] at h; exact absurd h (by simp)
  | some p =>
    rw [hf] at h
    have hmem := List.mem_of_find?_eq_some hf
    have hkey : p.1 = line := by
      have := List.find?_some hf
      exact eq_of_beq this
    have hval : p.2 = byteOffsets (seg p.1) := hwf p hmem
    simp at h
    rw [← h, hval, hkey]

/-- Under a well-formed cache, the result of `word_at_position` is that of
the cache-free core: the cached path computes the same slice as the fresh
path. -/
theorem wordAtPosition_fst_eq (seg : List Char → List (List Char))
    (cache : OffsetsCache) (lines : List (List Char)) (scroll row col : Nat)
    (hwf : CacheWF seg cache) :
    (wordAtPosition seg cache lines scroll row col).1 =
      wapCore seg lines scroll row col := by
  unfold wordAtPosition wapCore
  by_cases h0 : col = 0
  · simp [h0]
  · simp only [if_neg h0]
    by_cases h1 : row + scroll = 0
    · simp [h1]
    · simp only [if_neg h1]
      cases hl : lines.get? (row + scroll - 1) with
      | none => rfl
      | some line =>
        simp only []
        by_cases h2 : (seg line).length ≤ col - 1
        · simp [h2]
        · simp only [if_neg h2]
          by_cases h3 : ((seg line).getD (col - 1) []).all rustIsWhitespace = true
          · rw [if_pos h3, if_pos h3]
          · simp only [if_neg h3]
            cases hc : cacheLookup cache line with
            | none =>
              cases hs : sliceByOffsets line (byteOffsets (seg line))
                  (walkBack (seg line) (col - 1)) (walkFwd (seg line) (col - 1)) <;>
                simp [hs]
            | some offs =>
              rw [cacheLookup_wf hwf hc]
              cases hs : sliceByOffsets line (byteOffsets (seg line))
                  (walkBack (seg line) (col - 1)) (walkFwd (seg line) (col - 1)) <;>
                simp [hs]

/-- `word_at_position` preserves cache well-formedness: the only entry it
ever inserts is the freshly computed offsets list for the exact line text. -/
theorem wordAtPosition_wf (seg : List Char → List (List Char))
    (cache : OffsetsCache) (lines : List (List Char)) (scroll row col : Nat)
    (hwf : CacheWF seg cache) :
    CacheWF seg (wordAtPosition seg cache lines scroll row col).2 := by
  unfold wordAtPosition
  by_cases h0 : col = 0
  · simpa [h0] using hwf
  · simp only [if_neg h0]
    by_cases h1 : row + scroll = 0
    · simpa [h1] using hwf
    · simp only [if_neg h1]
      cases hl : lines.get? (row + scroll - 1) with
      | none => exact hwf
      | some line =>
        simp only []
        by_cases h2 : (seg line).length ≤ col - 1
        · simpa [h2] using hwf
        · simp only [if_neg h2]
          by_cases h3 : ((seg line).getD (col - 1) []).all rustIsWhitespace = true
          · rw [if_pos h3]
            exact hwf
          · simp only [if_neg h3]
            cases hc : cacheLookup cache line with
            | none =>
              cases hs : sliceByOffsets line (byteOffsets (seg line))
                  (walkBack (seg line) (col - 1)) (walkFwd (seg line) (col - 1)) with
              | ok w =>
                simp only [hs]
                intro p hp
                rcases List.mem_cons.mp hp with rfl | hp
                · rfl
                · exact hwf p hp
              | error msg => simpa [hs] using hwf
            | some offs =>
              cases hs : sliceByOffsets line offs
                  (walkBack (seg line) (col - 1)) (walkFwd (seg line) (col - 1)) <;>
                simpa [hs] using hwf

/-- The empty cache is well-formed. -/
theorem cacheWF_nil (seg : List Char → List (List Char)) : CacheWF seg [] := by
  intro p hp
  cases hp

/-- The single-character segmentation satisfies the segmentation
contract. -/
theorem charSeg_segOK : SegOK charSeg := by
  intro l
  induction l with
  | nil => rfl
  | cons c cs ih => simp [charSeg] at ih ⊢; exact ih

/-- When any of the specification's "no word" conditions holds, the
cache-free core yields no word. -/
theorem wapCore_none_of (seg : List Char → List (List Char))
    (lines : List (List Char)) (scroll row col : Nat)
    (h : NoWordConds seg lines scroll row col) :
    wapCore seg lines scroll row col = .ok none := by
  unfold wapCore
  by_cases h0 : col = 0
  · simp [h0]
  · simp only [if_neg h0]
    by_cases h1 : row + scroll = 0
    · simp [h1]
    · simp only [if_neg h1]
      cases hl : lines.get? (row + scroll - 1) with
      | none => rfl
      | some line =>
        simp only []
        rcases h with h | h | ⟨line2, hl2, hcond⟩
        · exact absurd h h0
        · exfalso
          apply h
          refine ⟨by omega, ?_⟩
          rw [List.get?_eq_getElem?] at hl
          exact (List.getElem?_eq_some_iff.mp hl).1
        · rw [hl2] at hl
          injection hl with hl
          subst hl
          rcases hcond with hcond | ⟨hlt, hws⟩
          · simp [hcond]
          · rw [if_neg (by omega), if_pos hws]

/-- When none of the "no word" conditions holds and the segmentation is
faithful, the cache-free core resolves a word inside the line at index
`row + scroll - 1`. -/
theorem wapCore_some_of (seg : List Char → List (List Char))
    (hseg : SegOK seg) (lines : List (List Char)) (scroll row col : Nat)
    (h : ¬ NoWordConds seg lines scroll row col) :
    ∃ line w, lines.get? (row + scroll - 1) = some line ∧
      wapCore seg lines scroll row col = .ok (some w) ∧ w <:+: line := by
  have h0 : ¬ col = 0 := fun hc => h (Or.inl hc)
  have h1 : 0 < row + scroll ∧ row + scroll - 1 < lines.length := by
    by_contra hc
    exact h (Or.inr (Or.inl hc))
  obtain ⟨line, hl⟩ : ∃ line, lines.get? (row + scroll - 1) = some line := by
    cases hg : lines.get? (row + scroll - 1) with
    | none =>
      rw [List.get?_eq_none] at hg
      omega
    | some l2 => exact ⟨l2, rfl⟩
  · have hnot : ¬ ((seg line).length ≤ col - 1 ∨
        (col - 1 < (seg line).length ∧
          ((seg line).getD (col - 1) []).all rustIsWhitespace = true)) :=
      fun hc => h (Or.inr (Or.inr ⟨line, hl, hc⟩))
    have hlen : col - 1 < (seg line).length := by
      by_contra hc
      exact hnot (Or.inl (by omega))
    have hws : ¬ ((seg line).getD (col - 1) []).all rustIsWhitespace = true :=
      fun hc => hnot (Or.inr ⟨hlen, hc⟩)
    have hse : walkBack (seg line) (col - 1) ≤ walkFwd (seg line) (col - 1) :=
      Nat.le_trans (walkBack_le (seg line) (col - 1)) (walkFwd_ge (seg line) (col - 1))
    have hee : walkFwd (seg line) (col - 1) ≤ (seg line).length :=
      walkFwd_le (seg line) (col - 1) (Nat.le_of_lt hlen)
    refine ⟨line,
      (((seg line).drop (walkBack (seg line) (col - 1))).take
        (walkFwd (seg line) (col - 1) - walkBack (seg line) (col - 1))).flatten,
      hl, ?_, ?_⟩
    · unfold wapCore
      rw [if_neg h0, if_neg (by omega : ¬ row + scroll = 0)]
      simp only [hl, if_neg hnot.elim]
      rw [if_neg (by omega : ¬ (seg line).length ≤ col - 1), if_neg hws]
      rw [sliceByOffsets_ok (seg line) line (hseg line) _ _ hse hee]
    · refine ⟨((seg line).take (walkBack (seg line) (col - 1))).flatten,
        (((seg line).drop (walkBack (seg line) (col - 1))).drop
          (walkFwd (seg line) (col - 1) - walkBack (seg line) (col - 1))).flatten, ?_⟩
      rw [List.append_assoc, ← List.flatten_append, List.take_append_drop,
        ← List.flatten_append, List.take_append_drop]
      exact hseg line

/-! Section: Claim theorems. -/

/-- C1, counterexample: at scroll offset 5, line count 0 and viewport
height 2, the per-frame clamp yields 2, which exceeds the claimed bound
`max(0, line_count - viewport_height + 2) = 0`, and in particular is not 0
although `h ≥ n + 2`. -/
theorem claim_C1_counterexample :
    clampScroll 5 0 2 = 2 ∧
    ¬((clampScroll 5 0 2 : Int) ≤ max 0 ((0 : Int) - 2 + 2)) ∧
    clampScroll 5 0 2 ≠ 0 := by
  refine ⟨rfl, by decide, by decide⟩

/-- C1, amended: after the per-frame clamp the scroll offset satisfies
`0 ≤ o ≤ max(0, n - h) + 2` (the saturating subtraction happens before the
`+2` is added), and when `h ≥ n + 2` the clamped offset is `min(o, 2)`,
not necessarily 0.  (`0 ≤ o` holds since offsets are natural numbers.) -/
theorem claim_C1_amended (o n h : Nat) (hn : n + 2 < 65536) :
    clampScroll o n h ≤ n - h + 2 ∧ (n + 2 ≤ h → clampScroll o n h = min o 2) := by
  have hb : (n - h + 2) % 65536 = n - h + 2 := Nat.mod_eq_of_lt (by omega)
  unfold clampScroll
  rw [hb]
  refine ⟨Nat.min_le_right _ _, fun hh => ?_⟩
  have h0 : n - h = 0 := by omega
  rw [h0]

/-- Witness for C1 at `o = 5`, `n = 7`, `h = 4`. -/
theorem claim_C1_witness :
    7 + 2 < 65536 ∧
    (clampScroll 5 7 4 ≤ 7 - 4 + 2 ∧ (7 + 2 ≤ 4 → clampScroll 5 7 4 = min 5 2)) :=
  ⟨by decide, claim_C1_amended 5 7 4 (by decide)⟩

/-- C2 (code-bug evaluation): after a resize to 120 columns in a session
whose startup already stored `MANWIDTH = "78"`, `set_man_width_variable`
returns the environment unchanged — the "already set, skip" branch applies
mid-session — whereas the recomputation the claim requires would store
`"118"` (120 columns minus the 2-column border margin). -/
theorem claim_C2_bug :
    setManWidthVariable (some ['7', '8']) (some 120) = some ['7', '8'] ∧
    setManWidthVariable none (some 120) = some (Nat.toDigits 10 118) ∧
    (['7', '8'] : List Char) ≠ Nat.toDigits 10 118 :=
  ⟨rfl, rfl, by decide⟩

/-- C3: the link jump reports success exactly when the waited-for child
terminated normally (`WIFEXITED`) with exit status zero; every other
outcome (fork failure, wait failure, non-zero exit, termination by signal)
yields an error result of `try_link_jump`, not a crash. -/
theorem claim_C3 (w : JumpWorld) :
    (tryLinkJump w = .ok () ↔ TerminatedNormallyZero w) ∧
    (tryLinkJump w = .ok () ∨ ∃ e, tryLinkJump w = .error e) := by
  constructor
  · cases w with
    | forkFailed => simp [tryLinkJump, TerminatedNormallyZero]
    | waitFailed => simp [tryLinkJump, TerminatedNormallyZero]
    | waited s =>
      by_cases hc : wifexited s = true ∧ wexitstatus s = 0 <;>
        simp [tryLinkJump, TerminatedNormallyZero, hc]
  · cases htl : tryLinkJump w with
    | ok a => cases a; exact Or.inl rfl
    | error e => exact Or.inr ⟨e, rfl⟩

/-- C4: parsing `"mount(2)"` succeeds with name `"mount"` and section
`"2"`, and parsing `"mount(2"` (no closing parenthesis) succeeds with the
same name and section. -/
theorem claim_C4 :
    tryFrom "mount(2)".data = some ⟨"mount".data, '2'⟩ ∧
    tryFrom "mount(2".data = some ⟨"mount".data, '2'⟩ := by
  constructor <;> rfl

/-- C5: the reference parser rejects every token that contains NUL or a
`/` path separator, every token without `(`, and every token where no
character follows the first `(` or that character is not an ASCII digit. -/
theorem claim_C5 (v : List Char)
    (h : (∃ c ∈ v, c = nulChar ∨ c = '/') ∨ '(' ∉ v ∨
      (∃ b a, splitAtParen v = some (b, a) ∧
        ∀ c, a.head? = some c → c.isDigit = false)) :
    tryFrom v = none := by
  rcases h with h | h | ⟨b, a, hsp, hd⟩
  · have hany : v.any (fun c => c = nulChar || c = '/') = true := by
      rw [List.any_eq_true]
      obtain ⟨c, hc, hcc⟩ := h
      exact ⟨c, hc, by rcases hcc with rfl | rfl <;> simp⟩
    simp [tryFrom, hany]
  · simp [tryFrom, splitAtParen_eq_none v h]
  · cases ha : a.head? with
    | none => simp [tryFrom, hsp, ha]
    | some c => simp [tryFrom, hsp, ha, hd c ha]

/-- Witness for C5 at the token `"../etc/passwd(1)"` (path separator). -/
theorem claim_C5_witness :
    ((∃ c ∈ "../etc/passwd(1)".data, c = nulChar ∨ c = '/') ∨
      '(' ∉ "../etc/passwd(1)".data ∨
      (∃ b a, splitAtParen "../etc/passwd(1)".data = some (b, a) ∧
        ∀ c, a.head? = some c → c.isDigit = false)) ∧
    tryFrom "../etc/passwd(1)".data = none :=
  ⟨Or.inl (by decide), claim_C5 _ (Or.inl (by decide))⟩

/-- C8, counterexample: in the `run` event loop that `main` executes, a
left-click release at border row 0 (height 24) still invokes the Word
Locator, although the claimed gate `1 ≤ row ≤ height - 3` excludes row 0. -/
theorem claim_C8_counterexample :
    runClickInvokes MouseKind.leftUp 0 24 = true ∧
    ¬(1 ≤ (0 : Nat) ∧ (0 : Nat) ≤ 24 - 3) := by
  decide

/-- C8, amended: only the unused `App::handle_event` variant gates the
word lookup on `row ∈ [1, height - 3]`; in the `run` event loop that the
program actually executes, every left-click release invokes the Word
Locator regardless of row, and border clicks yield no word only through
the locator's own bounds checks. -/
theorem claim_C8_amended (kind : MouseKind) (row height : Nat)
    (h3 : 3 ≤ height) (hh : height < 65536) :
    (appClickInvokes kind row height = true ↔
      kind = MouseKind.leftUp ∧ 1 ≤ row ∧ row ≤ height - 3) ∧
    (runClickInvokes kind row height = true ↔ kind = MouseKind.leftUp) := by
  have hm : (height + 65533) % 65536 = height - 3 := by omega
  constructor
  · simp [appClickInvokes, hm, and_assoc]
  · simp [runClickInvokes]

/-- Witness for C8 at a left-click release on row 1 with height 24. -/
theorem claim_C8_witness :
    3 ≤ 24 ∧ (24 : Nat) < 65536 ∧
    ((appClickInvokes MouseKind.leftUp 1 24 = true ↔
        MouseKind.leftUp = MouseKind.leftUp ∧ 1 ≤ 1 ∧ 1 ≤ 24 - 3) ∧
      (runClickInvokes MouseKind.leftUp 1 24 = true ↔
        MouseKind.leftUp = MouseKind.leftUp)) :=
  ⟨by decide, by decide, claim_C8_amended MouseKind.leftUp 1 24 (by decide) (by decide)⟩

/-- C9, counterexample: with 0 lines and viewport height 3, the `G` key
sets the offset to 65535 (wrapping `u16` arithmetic), not to the claimed
`line_count - viewport_height + 2 = -1`. -/
theorem claim_C9_counterexample :
    gKeyScroll 0 3 = 65535 ∧ (gKeyScroll 0 3 : Int) ≠ (0 : Int) - 3 + 2 := by
  refine ⟨rfl, by decide⟩

/-- C9, amended: the `G` key sets the offset to
`(line_count - viewport_height + 2) mod 2^16` (wrapping `u16` arithmetic);
this equals `line_count - viewport_height + 2` exactly whenever
`h ≤ n + 2` and that value fits in a `u16`, and when `h > n + 2` (viewport
taller than content plus borders) the wrapped value is large and the
next-frame clamp reduces it to the clamp bound 2. -/
theorem claim_C9_amended (n h : Nat) (hn : n < 65536) (hh : h < 65536) :
    (gKeyScroll n h : Int) % 65536 = ((n : Int) - h + 2) % 65536 ∧
    (h ≤ n + 2 → n + 2 - h < 65536 → gKeyScroll n h = n + 2 - h) ∧
    (n + 2 < h → clampScroll (gKeyScroll n h) n h = 2) := by
  refine ⟨?_, fun hle hfit => ?_, fun hlt => ?_⟩
  · unfold gKeyScroll
    omega
  · unfold gKeyScroll
    omega
  · have hg : 2 ≤ gKeyScroll n h := by unfold gKeyScroll; omega
    have hb : (n - h + 2) % 65536 = 2 := by omega
    unfold clampScroll
    rw [hb]
    exact Nat.min_eq_right hg

/-- Witness for C9 at `n = 10`, `h = 5`. -/
theorem claim_C9_witness :
    (10 : Nat) < 65536 ∧ (5 : Nat) < 65536 ∧
    ((gKeyScroll 10 5 : Int) % 65536 = ((10 : Int) - 5 + 2) % 65536 ∧
      (5 ≤ 10 + 2 → 10 + 2 - 5 < 65536 → gKeyScroll 10 5 = 10 + 2 - 5) ∧
      (10 + 2 < 5 → clampScroll (gKeyScroll 10 5) 10 5 = 2)) :=
  ⟨by decide, by decide, claim_C9_amended 10 5 (by decide) (by decide)⟩

/-- C10: every token whose first character is `(` immediately followed by
an ASCII digit, and which contains no NUL and no `/`, parses successfully
to a reference with the empty name and that digit as section; `as_args`
then passes the name on as an empty subprocess argument. -/
theorem claim_C10 (d : Char) (rest : List Char)
    (hd : d.isDigit = true)
    (hclean : (('(' :: d :: rest).any (fun c => c = nulChar || c = '/')) = false) :
    tryFrom ('(' :: d :: rest) = some ⟨[], d⟩ ∧
    asArgs ⟨[], d⟩ = some ([d], []) := by
  constructor
  · unfold tryFrom
    rw [if_neg (by simp [hclean])]
    simp [splitAtParen, hd]
  · have hnd : ¬ d = nulChar := by
      intro hcontra
      rw [hcontra] at hd
      exact absurd hd (by decide)
    simp [asArgs, hnd]

/-- C6: under any faithful grapheme segmentation and well-formed cache,
`word_at_position` yields "no word" exactly when the screen column is 0,
the resolved line index `row + scroll - 1` is out of range, the grapheme
index `col - 1` is at or past the line's cluster count, or the cluster at
that index is all-whitespace; otherwise it resolves a word inside the line
at index `row + scroll - 1`. -/
theorem claim_C6 (seg : List Char → List (List Char)) (hseg : SegOK seg)
    (cache : OffsetsCache) (hwf : CacheWF seg cache)
    (lines : List (List Char)) (scroll row col : Nat) :
    (NoWordConds seg lines scroll row col ↔
      (wordAtPosition seg cache lines scroll row col).1 = .ok none) ∧
    (¬ NoWordConds seg lines scroll row col →
      ∃ line w, lines.get? (row + scroll - 1) = some line ∧
        (wordAtPosition seg cache lines scroll row col).1 = .ok (some w) ∧
        w <:+: line) := by
  rw [wordAtPosition_fst_eq seg cache lines scroll row col hwf]
  constructor
  · constructor
    · exact wapCore_none_of seg lines scroll row col
    · intro hres
      by_contra hn
      obtain ⟨line, w, _, hw, _⟩ := wapCore_some_of seg hseg lines scroll row col hn
      rw [hres] at hw
      exact absurd hw (by simp)
  · exact wapCore_some_of seg hseg lines scroll row col

/-- Witness for C6: a click on column 6 of `"foo bar(1)"` (row 1,
scroll 0) resolves the word `"bar(1)"`. -/
theorem claim_C6_witness :
    SegOK charSeg ∧ CacheWF charSeg [] ∧
    ((NoWordConds charSeg ["foo bar(1)".data] 0 1 6 ↔
        (wordAtPosition charSeg [] ["foo bar(1)".data] 0 1 6).1 = .ok none) ∧
      (¬ NoWordConds charSeg ["foo bar(1)".data] 0 1 6 →
        ∃ line w, ["foo bar(1)".data].get? (1 + 0 - 1) = some line ∧
          (wordAtPosition charSeg [] ["foo bar(1)".data] 0 1 6).1 = .ok (some w) ∧
          w <:+: line)) :=
  ⟨charSeg_segOK, cacheWF_nil charSeg,
    claim_C6 charSeg charSeg_segOK [] (cacheWF_nil charSeg)
      ["foo bar(1)".data] 0 1 6⟩

/-- C7: `word_at_position` is deterministic and cache-insensitive — a
second call with identical arguments (on the cache the first call
returned) yields the first call's result, and the result on any
well-formed cache equals the result computed with the empty cache, i.e.
via freshly computed offsets. -/
theorem claim_C7 (seg : List Char → List (List Char)) (cache : OffsetsCache)
    (lines : List (List Char)) (scroll row col : Nat) (hwf : CacheWF seg cache) :
    (wordAtPosition seg (wordAtPosition seg cache lines scroll row col).2
        lines scroll row col).1 =
      (wordAtPosition seg cache lines scroll row col).1 ∧
    (wordAtPosition seg cache lines scroll row col).1 =
      (wordAtPosition seg [] lines scroll row col).1 := by
  have hwf2 := wordAtPosition_wf seg cache lines scroll row col hwf
  constructor
  · rw [wordAtPosition_fst_eq seg _ lines scroll row col hwf2,
      wordAtPosition_fst_eq seg cache lines scroll row col hwf]
  · rw [wordAtPosition_fst_eq seg cache lines scroll row col hwf,
      wordAtPosition_fst_eq seg [] lines scroll row col (cacheWF_nil seg)]

/-- Witness for C7 at the `"foo bar(1)"` click of the C6 instantiation. -/
theorem claim_C7_witness :
    CacheWF charSeg [] ∧
    ((wordAtPosition charSeg
          (wordAtPosition charSeg [] ["foo bar(1)".data] 0 1 6).2
          ["foo bar(1)".data] 0 1 6).1 =
        (wordAtPosition charSeg [] ["foo bar(1)".data] 0 1 6).1 ∧
      (wordAtPosition charSeg [] ["foo bar(1)".data] 0 1 6).1 =
        (wordAtPosition charSeg [] ["foo bar(1)".data] 0 1 6).1) :=
  ⟨cacheWF_nil charSeg,
    claim_C7 charSeg [] ["foo bar(1)".data] 0 1 6 (cacheWF_nil charSeg)⟩

/-- Witness for C10 at the token `"(2)"`. -/
theorem claim_C10_witness :
    '2'.isDigit = true ∧
    (('(' :: '2' :: [')']).any (fun c => c = nulChar || c = '/')) = false ∧
    (tryFrom ('(' :: '2' :: [')']) = some ⟨[], '2'⟩ ∧
      asArgs ⟨[], '2'⟩ = some (['2'], [])) :=
  ⟨by decide, by decide, claim_C10 '2' [')'] (by decide) (by decide)⟩

end LinkMan
